import Mathlib

/-!
Verification of the smartmeter telegram pipeline (digimeter.py, utils.py,
aux.py) against its specification.  Python byte strings are modelled as
`List ℕ` (each element one byte), Python `str` as Lean `String`, Python
numbers as `ℤ`/`ℚ` (floats are modelled as the exact rational value denoted
by their literal; IEEE rounding and overflow-to-infinity are not observable
in any property below), and Python exceptions as `Option`/`none`.
-/

set_option maxRecDepth 100000

/-- The dynamic type of a decoded field value: `int`, `float` or `str`
(the union produced by `autoformat` in utils.py). -/
inductive PyVal : Type where
  | PInt : ℤ → PyVal
  | PFloat : ℚ → PyVal
  | PStr : String → PyVal
deriving DecidableEq, Repr

/-- A Python dict with string keys, modelled as a list of writes with the
most recent write at the head; `dget` returns the most recent value. -/
def Dict : Type := List (String × PyVal)

instance : DecidableEq Dict := by unfold Dict; infer_instance

/-- `d[k] = v` (assignment overwrites: the new write shadows older ones). -/
def dput (k : String) (v : PyVal) (d : Dict) : Dict := (k, v) :: d

/-- `d.get(k)`: most recent value written for `k`, if any. -/
def dget (d : Dict) (k : String) : Option PyVal :=
  List.lookup k d

/-- The byte `b"!"`, the end-of-data delimiter of a telegram. -/
def bangByte : ℕ := 0x21

/-- ASCII whitespace bytes stripped by Python `bytes.strip()` and by
`int(b, 16)` on byte strings. -/
def isWsByte (b : ℕ) : Bool :=
  b == 0x20 || b == 0x09 || b == 0x0a || b == 0x0d || b == 0x0b || b == 0x0c

/-- Python `bytes.strip()`: remove leading and trailing ASCII whitespace. -/
def stripWs (l : List ℕ) : List ℕ :=
  ((l.dropWhile isWsByte).reverse.dropWhile isWsByte).reverse

/-- Value of one hexadecimal digit byte (`0-9`, `A-F`, `a-f`). -/
def hexDigitVal? (b : ℕ) : Option ℕ :=
  if 0x30 ≤ b ∧ b ≤ 0x39 then some (b - 0x30)
  else if 0x41 ≤ b ∧ b ≤ 0x46 then some (b - 0x37)
  else if 0x61 ≤ b ∧ b ≤ 0x66 then some (b - 0x57)
  else none

/-- Digit scanner of CPython `int(s, 16)`: consumes hex digits, allowing a
single `_` between digits (and directly after the `0x` base marker, which
is what the initial `prevOk` flag encodes); fails unless at least one digit
was consumed and the whole input is consumed. -/
def scanHexDigits : List ℕ → Bool → Bool → ℕ → Option ℕ
  | [], _, seen, acc => if seen then some acc else none
  | c :: cs, prevOk, seen, acc =>
    match hexDigitVal? c, cs with
    | some d, _ => scanHexDigits cs true true (16 * acc + d)
    | none, c2 :: _ =>
      if c == 0x5f && (prevOk && (hexDigitVal? c2).isSome) then scanHexDigits cs false seen acc
      else none
    | none, [] => none

/-- CPython `int(s, 16)` on a byte string that has already been stripped of
surrounding whitespace (in `check_msg` the source strips explicitly before
calling `int`, and `int`'s own stripping of the same whitespace set is then
a no-op): optional sign, optional `0x`/`0X` marker, then hex digits.
`none` models `ValueError`. -/
def pyIntHexSign (c : ℕ) : ℤ :=
  if c == 0x2b then 1 else if c == 0x2d then -1 else 1

/-- The part of `int(s, 16)` after the optional sign: strip an optional
`0x`/`0X` base marker, then scan the digits. -/
def pyIntHexCore (sign : ℤ) (body : List ℕ) : Option ℤ :=
  match body with
  | b0 :: b1 :: tail =>
    if b0 == 0x30 && (b1 == 0x78 || b1 == 0x58) then
      (scanHexDigits tail true false 0).map (fun v => sign * (v : ℤ))
    else
      (scanHexDigits body false false 0).map (fun v => sign * (v : ℤ))
  | _ => (scanHexDigits body false false 0).map (fun v => sign * (v : ℤ))

def pyIntHex (l : List ℕ) : Option ℤ :=
  match l with
  | [] => none
  | c :: rest =>
    pyIntHexCore (pyIntHexSign c) (if c == 0x2b || c == 0x2d then rest else l)

/-- One bit step of the reflected CRC16 used by `crccheck.crc.Crc16Lha`
(CRC-16/ARC: polynomial 0x8005 reflected = 0xA001, init 0, xorout 0). -/
def bitstep (s : ℕ) : ℕ :=
  if s % 2 = 1 then (s / 2) ^^^ 0xA001 else s / 2

/-- One byte step: xor the byte into the state, then eight bit steps. -/
def crcByteStep (s b : ℕ) : ℕ :=
  bitstep (bitstep (bitstep (bitstep (bitstep (bitstep (bitstep (bitstep (s ^^^ b))))))))

/-- `Crc16Lha.calc`: the CRC-16/ARC checksum of a byte string. -/
def crc16 (l : List ℕ) : ℕ := l.foldl crcByteStep 0

/-- Lower-case hex digit byte for a nibble (as produced by Python `hex`). -/
def hexCharL (d : ℕ) : ℕ := if d < 10 then 0x30 + d else 0x57 + d

/-- Big-endian lower-case hex digits with explicit fuel (the fuel bounds
the number of digits; `n` itself is always enough). -/
def natHexAuxF : ℕ → ℕ → List ℕ
  | 0, _ => []
  | fuel + 1, n => if n = 0 then [] else natHexAuxF fuel (n / 16) ++ [hexCharL (n % 16)]

/-- Big-endian lower-case hex digits of a natural number, no leading zeros
(empty for 0). -/
def natHexAux (n : ℕ) : List ℕ := natHexAuxF n n

/-- Hex digits of a natural number, `"0"` for 0. -/
def natHexStr (n : ℕ) : List ℕ := if n = 0 then [0x30] else natHexAux n

/-- Python `hex()` of an integer, as the byte string of its text:
`"0x..."`, or `"-0x..."` for negative input. -/
def pyHex (z : ℤ) : List ℕ :=
  if z < 0 then 0x2d :: 0x30 :: 0x78 :: natHexStr (-z).toNat
  else 0x30 :: 0x78 :: natHexStr z.toNat

/-- Index of the first `b"!"` in the message, `none` for Python's `-1`. -/
def bangIdx (l : List ℕ) : Option ℕ := l.findIdx? (fun b => b == bangByte)

/-- `raw_msg[: pos + 1]` of `check_msg`: all bytes up to and including the
first `!`; the empty string when there is no `!` (`pos = -1`). -/
def bangData (raw : List ℕ) : List ℕ :=
  match bangIdx raw with
  | some p => raw.take (p + 1)
  | none => []

/-- `raw_msg[pos + 1 :]` of `check_msg`: the bytes after the first `!`;
the whole message when there is no `!` (`pos = -1`). -/
def bangRest (raw : List ℕ) : List ℕ :=
  match bangIdx raw with
  | some p => raw.drop (p + 1)
  | none => raw

/-- `digimeter.check_msg`: split the message at the first `!`, parse the
trailing bytes as a hexadecimal integer, compute the CRC16 over the head,
and compare the two as Python `hex()` strings.  A `ValueError` from `int`
(modelled by `pyIntHex = none`) is caught and yields `False`. -/
def check_msg (raw : List ℕ) : Bool :=
  match pyIntHex (stripWs (bangRest raw)) with
  | none => false
  | some provided => pyHex provided == pyHex ((crc16 (bangData raw) : ℕ) : ℤ)

/-- Bytes of an ASCII string. -/
def toBytes (s : String) : List ℕ := s.toList.map Char.toNat

/-- Upper-case hex digit byte for a nibble. -/
def hexCharU (d : ℕ) : ℕ := if d < 10 then 0x30 + d else 0x37 + d

/-- A 16-bit checksum rendered as exactly four upper-case hex digits, the
format of the checksum trailer of a telegram
(`str(hex(crc))[2:].upper().zfill(4)` in the repository's test fixture). -/
def hex4 (n : ℕ) : List ℕ :=
  [hexCharU (n / 4096 % 16), hexCharU (n / 256 % 16), hexCharU (n / 16 % 16), hexCharU (n % 16)]

/-- Flip bit `b` of byte `i` of a byte string. -/
def flipBit (l : List ℕ) (i b : ℕ) : List ℕ :=
  l.set i (l.getD i 0 ^^^ 2 ^ b)

example : crc16 (toBytes "123456789") = 0xBB3D := by decide
example : crc16 (toBytes "ab!") = 0xA6B8 := by decide
example : check_msg (toBytes "ab!A6B8") = true := by decide
example : check_msg (toBytes "ab!A6B9") = false := by decide
example : pyIntHex (toBytes "0x_10") = some 16 := by decide
example : pyIntHex (toBytes "1_2") = some 18 := by decide
example : pyIntHex (toBytes "_1") = none := by decide
example : pyIntHex (toBytes "1_") = none := by decide
example : pyIntHex (toBytes "0x__1") = none := by decide
example : pyIntHex (toBytes "-0") = some 0 := by decide
example : pyIntHex (toBytes "ABCD") = some 43981 := by decide
example : pyIntHex [] = none := by decide
example : check_msg (toBytes "0") = true := by decide

/-- Characters treated as whitespace by Python `str.strip()` (restricted to
the Latin-1 range; the telegrams are ASCII-decoded so no higher code point
can occur). -/
def isPyWsChar (c : Char) : Bool :=
  (0x9 ≤ c.toNat && c.toNat ≤ 0xd) || (0x1c ≤ c.toNat && c.toNat ≤ 0x1f) ||
  c.toNat == 0x20 || c.toNat == 0x85 || c.toNat == 0xa0

/-- Python `str.strip()` on a character list. -/
def stripChars (l : List Char) : List Char :=
  ((l.dropWhile isPyWsChar).reverse.dropWhile isPyWsChar).reverse

/-- Python `str.strip()`. -/
def pyStrip (s : String) : String := ⟨stripChars s.toList⟩

/-- Line boundary characters of Python `str.splitlines()` (Latin-1 range;
`\r\n` is additionally treated as a single boundary). -/
def isLineBreakChar (c : Char) : Bool :=
  (0xa ≤ c.toNat && c.toNat ≤ 0xd) || (0x1c ≤ c.toNat && c.toNat ≤ 0x1e) ||
  c.toNat == 0x85

/-- Worker for `pySplitlines`: `acc` is the current line, reversed. -/
def splitlinesAux : List Char → List Char → List (List Char)
  | [], acc => if acc.isEmpty then [] else [acc.reverse]
  | '\r' :: '\n' :: cs, acc => acc.reverse :: splitlinesAux cs []
  | c :: cs, acc =>
    if isLineBreakChar c then acc.reverse :: splitlinesAux cs []
    else splitlinesAux cs (c :: acc)

/-- Python `str.splitlines()` (without keepends). -/
def pySplitlines (s : String) : List String :=
  (splitlinesAux s.toList []).map (fun l => ⟨l⟩)

/-- Python `s[a:b]` for `0 ≤ a ≤ b` (out-of-range indices clamp); Python
slices strings by code point, which is by-element on the char list. -/
def pySlice (s : String) (a b : ℕ) : String := ⟨(s.toList.drop a).take (b - a)⟩

/-- Python `s.startswith(p)`, by recursion on the pattern `p`. -/
def pyStartswithL : List Char → List Char → Bool
  | [], _ => true
  | _ :: _, [] => false
  | d :: ds, c :: cs => c == d && pyStartswithL ds cs

/-- Python `s.startswith(p)`. -/
def pyStartswith (s p : String) : Bool := pyStartswithL p.toList s.toList

/-- ASCII decimal digit (`\d` of the `re` module, restricted to ASCII:
every string reaching these regexes is ASCII-decoded serial data). -/
def isDigitChar (c : Char) : Bool := 0x30 ≤ c.toNat && c.toNat ≤ 0x39

/-- `re.match(r"^\d+$", s)`: a nonempty run of digits spanning the whole
string, where `$` may also match just before one trailing newline. -/
def reFullDigits (s : String) : Bool :=
  let l := s.toList
  let core := if l.getLast? == some '\n' then l.dropLast else l
  !core.isEmpty && core.all isDigitChar

/-- `re.match(r"\d+\.\d+", s)`: the regex is anchored at the start only, so
it holds iff the string begins with one or more digits, a dot, and a digit
(backtracking inside the leading `\d+` can never move the dot). -/
def reFloatScan (s : String) : Bool :=
  let l := s.toList
  let ds := l.takeWhile isDigitChar
  !ds.isEmpty &&
    match l.drop ds.length with
    | '.' :: d :: _ => isDigitChar d
    | _ => false

/-- Numeric value of a digit run. -/
def digitsVal (l : List Char) : ℕ :=
  l.foldl (fun a c => 10 * a + (c.toNat - 0x30)) 0

/-- Python `int(s)` on a string matching `^\d+$` (a possible trailing
newline is stripped by `int` itself). -/
def pyIntOfDecimal (s : String) : ℤ :=
  let l := s.toList
  digitsVal (if l.getLast? == some '\n' then l.dropLast else l)

/-- Digit-run scanner of CPython float literals: consumes decimal digits,
allowing `_` only between two digits (the count of digits seen so far is
threaded so that a leading `_` never matches); returns the value, the
number of digits consumed, and the unconsumed rest. -/
def scanDigitsU : List Char → ℕ → ℕ → ℕ × ℕ × List Char
  | [], acc, cnt => (acc, cnt, [])
  | c :: cs, acc, cnt =>
    if isDigitChar c then scanDigitsU cs (10 * acc + (c.toNat - 0x30)) (cnt + 1)
    else if c = '_' then
      match cs with
      | d :: _ => if 0 < cnt && isDigitChar d then scanDigitsU cs acc cnt else (acc, cnt, c :: cs)
      | [] => (acc, cnt, c :: cs)
    else (acc, cnt, c :: cs)

/-- CPython `float(s)` on numeric literals, with the value taken exactly
(as `ℚ`): optional whitespace and sign, `digits [. digits] [exponent]`
with at least one digit in the mantissa, underscores only between digits.
`inf`/`nan` spellings are omitted: `float` is only reached through
`autoformat`'s digit-dot-digit regex, which such spellings never match.
`none` models `ValueError`. -/
def pyFloatParse (s : String) : Option ℚ :=
  let l := stripChars s.toList
  let neg : Bool := l.head? == some '-'
  let body : List Char := if l.head? == some '+' || l.head? == some '-' then l.tail else l
  let (iv, icnt, l1) := scanDigitsU body 0 0
  let (fv, fcnt, l2) :=
    match l1 with
    | '.' :: rest => scanDigitsU rest 0 0
    | _ => (0, 0, l1)
  if icnt + fcnt = 0 then none
  else
    -- value = ±(iv·10^fcnt + fv) / 10^fcnt, then scaled by 10^±exponent;
    -- assembled as one `mkRat` over exact integer arithmetic.
    let m : ℤ := if neg then -((iv * 10 ^ fcnt + fv : ℕ) : ℤ) else ((iv * 10 ^ fcnt + fv : ℕ) : ℤ)
    match l2 with
    | [] => some (mkRat m (10 ^ fcnt))
    | e :: rest =>
      if e = 'e' ∨ e = 'E' then
        let eneg : Bool := rest.head? == some '-'
        let ebody : List Char :=
          if rest.head? == some '+' || rest.head? == some '-' then rest.tail else rest
        let (ev, ecnt, l3) := scanDigitsU ebody 0 0
        if ecnt = 0 ∨ l3 ≠ [] then none
        else if eneg then some (mkRat m (10 ^ fcnt * 10 ^ ev))
        else some (mkRat (m * (10 ^ ev : ℕ)) (10 ^ fcnt))
      else none

/-- `utils.autoformat` on a string input (in this program it is only ever
applied to string slices, so the `int`/`float` passthrough branches are
unreachable): all-digit strings become `int`, strings with a
digit-dot-digit *prefix* are passed whole to `float` (whose `ValueError`
on trailing junk propagates, modelled by `none`), anything else is
returned unchanged. -/
def autoformat (s : String) : Option PyVal :=
  if reFullDigits s then some (.PInt (pyIntOfDecimal s))
  else if reFloatScan s then (pyFloatParse s).map .PFloat
  else some (.PStr s)

/-- `utils.convert_timestamp`: `YYMMDDHHMMSS` plus `S`/`W`, century fixed
at 20; empty input raises `ValueError` and an unknown zone letter raises
`KeyError` (both modelled by `none`). -/
def convert_timestamp (s : String) : Option String :=
  if s = "" then none
  else
    match s.toList.getLast? with
    | some 'S' => some (mkTs s "02:00")
    | some 'W' => some (mkTs s "01:00")
    | _ => none
where
  mkTs (s tz : String) : String :=
    "20" ++ pySlice s 0 2 ++ "-" ++ pySlice s 2 4 ++ "-" ++ pySlice s 4 6 ++ "T" ++
      pySlice s 6 8 ++ ":" ++ pySlice s 8 10 ++ ":" ++ pySlice s 10 12 ++ "+" ++ tz

/-- `digimeter.FIELDS`: (OBIS code, dictionary key, start, end). -/
def FIELDS : List (String × String × ℕ × ℕ) :=
  [("0-0:1.0.0", "timestamp", 10, 23),
   ("1-0:1.8.1", "total_consumption_day", 10, 20),
   ("1-0:1.8.2", "total_consumption_night", 10, 20),
   ("1-0:2.8.1", "total_injection_day", 10, 20),
   ("1-0:2.8.2", "total_injection_night", 10, 20),
   ("0-0:96.14.0", "actual_tariff", 12, 16),
   ("1-0:1.7.0", "actual_total_consumption", 10, 16),
   ("1-0:2.7.0", "actual_total_injection", 10, 16),
   ("1-0:21.7.0", "actual_l1_consumption", 11, 17),
   ("1-0:41.7.0", "actual_l2_consumption", 11, 17),
   ("1-0:61.7.0", "actual_l3_consumption", 11, 17),
   ("1-0:22.7.0", "actual_l1_injection", 11, 17),
   ("1-0:42.7.0", "actual_l2_injection", 11, 17),
   ("1-0:62.7.0", "actual_l3_injection", 11, 17),
   ("1-0:32.7.0", "l1_voltage", 11, 16),
   ("1-0:52.7.0", "l2_voltage", 11, 16),
   ("1-0:72.7.0", "l3_voltage", 11, 16),
   ("1-0:31.7.0", "l1_current", 11, 17),
   ("1-0:51.7.0", "l2_current", 11, 17),
   ("1-0:71.7.0", "l3_current", 11, 17),
   ("0-1:24.2.3", "total_gas_consumption", 26, 35),
   ("0-1:24.2.3", "gas_timestamp", 11, 24)]

/-- The inner loop of `digimeter.parse` over one line: every `FieldSpec`
whose code is a literal prefix of the line stores its coerced slice
(matching does not stop at the first hit).  An exception from `autoformat`
propagates out of `parse`. -/
def parseLine (line : String) (msg : Dict) : Option Dict :=
  FIELDS.foldlM
    (fun m f =>
      if pyStartswith line f.1 then
        (autoformat (pySlice line f.2.2.1 f.2.2.2)).map (fun v => dput f.2.1 v m)
      else some m)
    msg

/-- `digimeter.parse`: seed the record with the local receive time
(`datetime.now().isoformat()`, passed here as the parameter `now`), then
run every `FieldSpec` over every line of the stripped message. -/
def parse (now : String) (raw_msg : String) : Option Dict :=
  (pySplitlines (pyStrip raw_msg)).foldlM (fun m line => parseLine line m)
    (dput "local_timestamp" (.PStr now) [])

example : autoformat "1234" = some (.PInt 1234) := by decide
example : autoformat "ABCD" = some (.PStr "ABCD") := by decide
example : autoformat "12.34" = some (.PFloat (mkRat 1234 100)) := by decide
example : autoformat "12.34abc" = none := by decide
example : autoformat "007" = some (.PInt 7) := by decide
example : autoformat "123\n" = some (.PInt 123) := by decide
example : autoformat "12.3_4" = some (.PFloat (mkRat 1234 100)) := by decide
example : autoformat "12.34e2" = some (.PFloat (mkRat 1234 1)) := by decide
example : autoformat "1_2.3" = some (.PStr "1_2.3") := by decide
example : autoformat ".5" = some (.PStr ".5") := by decide
example : convert_timestamp "211024195235S" = some "2021-10-24T19:52:35+02:00" := by decide
example : convert_timestamp "211024195235W" = some "2021-10-24T19:52:35+01:00" := by decide
example : convert_timestamp "" = none := by decide
example : pySplitlines "a\r\nb" = ["a", "b"] := by decide
example : pySplitlines "a\n" = ["a"] := by decide
example : pySplitlines "\n" = [""] := by decide
example : pySplitlines "" = [] := by decide
example : pyStrip "  ab \n" = "ab" := by decide

/-- A byte line decodes under `bytes.decode("ascii")` iff all bytes < 128
(`UnicodeDecodeError` otherwise). -/
def asciiLine (l : List ℕ) : Bool := l.all (· < 128)

/-- `bytes.decode("ascii")` for a line that passed `asciiLine`. -/
def decodeAscii (l : List ℕ) : String := ⟨l.map Char.ofNat⟩

/-- `START_OF_TELEGRAM.search(line)`: the pattern `^\/FLU\d{1}\\` is
anchored, so it holds iff the line starts with `/FLU`, one digit and a
backslash. -/
def startMatch (s : String) : Bool :=
  s.toList[0]? == some '/' && s.toList[1]? == some 'F' && s.toList[2]? == some 'L' &&
  s.toList[3]? == some 'U' &&
  (match s.toList[4]? with
   | some d => isDigitChar d
   | none => false) &&
  s.toList[5]? == some '\\'

/-- A character of the class `[A-Z0-9]`. -/
def isUpperOrDigit (x : Char) : Bool :=
  (0x41 ≤ x.toNat && x.toNat ≤ 0x5a) || (0x30 ≤ x.toNat && x.toNat ≤ 0x39)

/-- `END_OF_TELEGRAM.search(line)`: the pattern `^![A-Z0-9]{4}` is
anchored, so it holds iff the line starts with `!` and four characters in
`[A-Z0-9]`. -/
def endMatch (s : String) : Bool :=
  s.toList[0]? == some '!' &&
  (match s.toList[1]?, s.toList[2]?, s.toList[3]?, s.toList[4]? with
   | some a, some b, some c, some d => [a, b, c, d].all isUpperOrDigit
   | _, _, _, _ => false)

/-- `convert_timestamp(queue_data.get("timestamp"))` in `read_serial`:
a missing key gives `None` and a non-string value gives a `TypeError`
inside `convert_timestamp`; both are swallowed by the bare
`except Exception` of the read loop, modelled by `none`. -/
def convertTsVal : Option PyVal → Option String
  | some (.PStr s) => convert_timestamp s
  | _ => none

/-- The post-validation pipeline of `read_serial`'s end-of-telegram block:
parse the telegram, normalize its meter timestamp, and compute the clock
drift; any exception on the way is caught by the loop and the record is
not enqueued.  `driftOk` abstracts `calculate_timestamp_drift`, whose body
(`dateutil` plus wall-clock arithmetic) is an external collaborator: the
record is enqueued iff it returns without raising. -/
def enqueueStep (driftOk : String → Bool) (now : String) (tel : List ℕ) : Option Dict :=
  if check_msg tel then
    match parse now (decodeAscii tel) with
    | none => none
    | some d =>
      match convertTsVal (dget d "timestamp") with
      | none => none
      | some iso => if driftOk iso then some d else none
  else none

/-- The buffer update of one `read_serial` iteration: a start-marker line
replaces the telegram buffer and sets the capture flag (discarding any
frame in progress); otherwise the line is appended iff the flag is set. -/
def rsBuf (flag : Bool) (tel line : List ℕ) (s : String) : Bool × List ℕ :=
  if startMatch s then (true, line) else (flag, if flag then tel ++ line else tel)

/-- The line loop of `digimeter.read_serial` over a finite stream of lines,
returning the candidate frames passed to `check_msg` (first component) and
the records put on the message queue (second component).  State: the
`start_of_telegram_detected` flag and the `telegram` buffer.  A line that
fails ASCII decoding only clears the flag (the `UnicodeDecodeError`
handler); the end-of-telegram block runs whether or not the flag is set,
exactly as in the source. -/
def read_serial_go (driftOk : String → Bool) (now : String) :
    Bool → List ℕ → List (List ℕ) → List (List ℕ) × List Dict
  | _, _, [] => ([], [])
  | flag, tel, line :: rest =>
    if asciiLine line then
      if endMatch (decodeAscii line) then
        match enqueueStep driftOk now (rsBuf flag tel line (decodeAscii line)).2 with
        | some d =>
          ((rsBuf flag tel line (decodeAscii line)).2 ::
              (read_serial_go driftOk now false (rsBuf flag tel line (decodeAscii line)).2 rest).1,
            d :: (read_serial_go driftOk now false (rsBuf flag tel line (decodeAscii line)).2 rest).2)
        | none =>
          ((rsBuf flag tel line (decodeAscii line)).2 ::
              (read_serial_go driftOk now false (rsBuf flag tel line (decodeAscii line)).2 rest).1,
            (read_serial_go driftOk now false (rsBuf flag tel line (decodeAscii line)).2 rest).2)
      else
        read_serial_go driftOk now (rsBuf flag tel line (decodeAscii line)).1
          (rsBuf flag tel line (decodeAscii line)).2 rest
    else read_serial_go driftOk now false tel rest

/-- Candidate frames assembled by `read_serial` from a line stream. -/
def read_serial_frames (driftOk : String → Bool) (now : String) (lines : List (List ℕ)) :
    List (List ℕ) :=
  (read_serial_go driftOk now false [] lines).1

/-- Records enqueued by `read_serial` from a line stream. -/
def read_serial_msgs (driftOk : String → Bool) (now : String) (lines : List (List ℕ)) :
    List Dict :=
  (read_serial_go driftOk now false [] lines).2

/-- The line loop of `digimeter.fake_serial` over the lines of the replay
file (text mode, so lines are strings): a start-marker line replaces the
buffer, any other line is appended, and an end-marker line parses and
enqueues the buffer with NO CRC validation.  `parse` has no exception
handler here, so a coercion error kills the whole run (`none`). -/
def fake_serial_go (now : String) : String → List String → Option (List Dict)
  | _, [] => some []
  | tel, line :: rest =>
    let tel1 := if startMatch line then line else tel ++ line
    if endMatch line then
      match parse now tel1 with
      | none => none
      | some d => (fake_serial_go now tel1 rest).map (d :: ·)
    else fake_serial_go now tel1 rest

/-- Records enqueued by `fake_serial` from the replay file's lines
(the buffer starts as the empty string). -/
def fake_serial_msgs (now : String) (lines : List String) : Option (List Dict) :=
  fake_serial_go now "" lines

/-- `aux.Load` of the source: the GPIO pin value (off at construction) and
`state_start_time`, which is `None` until the first transition.  Times are
wall-clock seconds as `ℚ`. -/
structure Load where
  pinOn : Bool
  state_start_time : Option ℚ
deriving DecidableEq

/-- `Load.__init__`: pin low, `state_start_time = None`. -/
def Load.init : Load := ⟨false, none⟩

/-- `Load.on()`: record the transition time, drive the pin high. -/
def Load.on (_ld : Load) (now : ℚ) : Load := ⟨true, some now⟩

/-- `Load.off()`: record the transition time, drive the pin low. -/
def Load.off (_ld : Load) (now : ℚ) : Load := ⟨false, some now⟩

/-- Python `int()` on a rational: truncation toward zero. -/
def pyTrunc (q : ℚ) : ℤ := if q < 0 then -(⌊-q⌋) else ⌊q⌋

/-- `Load.state_time`: `-1` while the state has never changed, otherwise
`int(time() - self.state_start_time)`. -/
def Load.state_time (ld : Load) (now : ℚ) : ℤ :=
  match ld.state_start_time with
  | none => -1
  | some t0 => pyTrunc (now - t0)

/-- A lifetime of a load: a list of `on()`/`off()` calls with their
wall-clock times, applied in order. -/
def Load.runOps (ld : Load) (ops : List (Bool × ℚ)) : Load :=
  ops.foldl (fun l op => if op.1 then l.on op.2 else l.off op.2) ld

/-- Modelled from the spec: the per-load configuration of §4.5
(`LoadConfig`).  The dwell-time `LoadManager` that `main.py` instantiates
(`LoadManager()` plus `add_load`, with `switch_on_power`,
`switch_off_power` and `hold_time` read from the config file) is not
present under src/ — aux.py holds an older, timer-based revision with an
incompatible constructor — so this component is modelled from the spec's
words. -/
structure LoadConfig where
  name : String
  max_power : ℚ
  switch_on_power : ℚ
  switch_off_power : ℚ
  hold_time : ℚ
deriving DecidableEq

/-- Modelled from the spec: `LoadState` of §3 — config, `is_on`, and the
time of the last transition. -/
structure LoadState where
  cfg : LoadConfig
  is_on : Bool
  last_transition_time : ℚ
deriving DecidableEq

/-- Modelled from the spec: `on()` sets `is_on` and resets
`last_transition_time` to now. -/
def LoadState.on (st : LoadState) (now : ℚ) : LoadState :=
  { st with is_on := true, last_transition_time := now }

/-- Modelled from the spec: `off()` clears `is_on` and resets
`last_transition_time` to now. -/
def LoadState.off (st : LoadState) (now : ℚ) : LoadState :=
  { st with is_on := false, last_transition_time := now }

/-- Numeric view of a record field for the controller: Python numbers give
their value, a missing key gives the `record.get(key, 0)` default 0. -/
def numValue : Option PyVal → ℚ
  | some (.PInt z) => (z : ℚ)
  | some (.PFloat q) => q
  | _ => 0

/-- `q * 1000` (kW→W scaling), written over `mkRat` so that it evaluates
by kernel reduction. -/
def kWtoW (q : ℚ) : ℚ := mkRat (q.num * 1000) q.den

/-- Modelled from the spec: `injected = record.actual_total_injection *
1000`. -/
def injectedW (record : Dict) : ℚ := kWtoW (numValue (dget record "actual_total_injection"))

/-- Modelled from the spec: `consumed = record.actual_total_consumption *
1000`. -/
def consumedW (record : Dict) : ℚ := kWtoW (numValue (dget record "actual_total_consumption"))

/-- Modelled from the spec: §4.5 turn-on and turn-off rules for one load.
Turn on when the load is off, `injected > switch_on_power` and
`state_time > hold_time`; turn off when the load is on, `state_time >
hold_time` and the side of `switch_off_power` selected by its sign is
below `|switch_off_power|`; otherwise leave the load alone.  `hold_time`
is a pure dwell time: a single qualifying reading flips the state. -/
def processLoad (now : ℚ) (record : Dict) (st : LoadState) : LoadState :=
  let injected := injectedW record
  let consumed := consumedW record
  let state_time := now - st.last_transition_time
  if st.is_on = false ∧ injected > st.cfg.switch_on_power ∧ state_time > st.cfg.hold_time then
    st.on now
  else if st.is_on = true ∧ state_time > st.cfg.hold_time ∧
      ((st.cfg.switch_off_power < 0 ∧ injected < |st.cfg.switch_off_power|) ∨
        (0 ≤ st.cfg.switch_off_power ∧ consumed < |st.cfg.switch_off_power|)) then
    st.off now
  else st

/-- Modelled from the spec: `LoadManager.process(record)` evaluates every
configured load in configuration order. -/
def LoadManager.process (now : ℚ) (record : Dict) (loads : List LoadState) : List LoadState :=
  loads.map (processLoad now record)

example : Load.init.state_time 5 = -1 := by decide

/-- Parse back the value of a hex digit string (proof tool for the
injectivity of `pyHex`). -/
def unhexVal (l : List ℕ) : ℕ :=
  l.foldl (fun a c => 16 * a + (hexDigitVal? c).getD 0) 0

/-- The single-bit error pattern: `n` zero bytes with byte `i` replaced by
`v` (proof tool for CRC error detection). -/
def errList (n i v : ℕ) : List ℕ := (List.replicate n 0).set i v

/-! ## Helper lemmas -/

theorem stripChars_eq_self (l : List Char) (h : ∀ c ∈ l, isPyWsChar c = false) :
    stripChars l = l := by
  have h1 : List.dropWhile isPyWsChar l = l := by
    cases l with
    | nil => rfl
    | cons a t => simp [List.dropWhile_cons, h a (by simp)]
  have h2 : List.dropWhile isPyWsChar l.reverse = l.reverse := by
    cases hr : l.reverse with
    | nil => rfl
    | cons a t =>
      have ha : a ∈ l := by
        rw [← List.mem_reverse, hr]; simp
      simp [List.dropWhile_cons, h a ha]
  unfold stripChars
  rw [h1, h2, List.reverse_reverse]

theorem not_ws_of_digit (c : Char) (h : isDigitChar c = true) : isPyWsChar c = false := by
  simp only [isDigitChar, Bool.and_eq_true, decide_eq_true_eq] at h
  simp only [isPyWsChar, Bool.or_eq_false_iff, Bool.and_eq_false_iff]
  refine ⟨⟨⟨?_, ?_⟩, ?_⟩, ?_⟩ <;> simp only [decide_eq_false_iff_not, beq_eq_false_iff_ne] <;> omega

theorem dot_not_ws : isPyWsChar '.' = false := by decide

theorem takeWhile_digits_append (d l : List Char) (hd : ∀ c ∈ d, isDigitChar c = true)
    (hl : ∀ c, l.head? = some c → isDigitChar c = false) :
    (d ++ l).takeWhile isDigitChar = d := by
  induction d with
  | nil =>
    cases l with
    | nil => rfl
    | cons c t => simp [List.takeWhile_cons, hl c rfl]
  | cons a t ih =>
    simp only [List.cons_append, List.takeWhile_cons, hd a (by simp), if_true]
    rw [ih (fun c hc => hd c (by simp [hc]))]

theorem scanDigitsU_stop (l : List Char) (acc cnt : ℕ)
    (h : ∀ c, l.head? = some c → isDigitChar c = false ∧ c ≠ '_') :
    scanDigitsU l acc cnt = (acc, cnt, l) := by
  cases l with
  | nil => rfl
  | cons c t =>
    obtain ⟨h1, h2⟩ := h c rfl
    simp [scanDigitsU, h1, h2]

theorem scanDigitsU_run (d : List Char) (l : List Char) (acc cnt : ℕ)
    (hd : ∀ c ∈ d, isDigitChar c = true) :
    scanDigitsU (d ++ l) acc cnt =
      scanDigitsU l (d.foldl (fun a c => 10 * a + (c.toNat - 0x30)) acc) (cnt + d.length) := by
  induction d generalizing acc cnt with
  | nil => simp
  | cons a t ih =>
    simp only [List.cons_append, scanDigitsU, hd a (by simp), if_true]
    rw [List.append_eq, ih _ _ (fun c hc => hd c (by simp [hc]))]
    simp only [List.foldl_cons, List.length_cons]
    congr 1
    omega

theorem digit_ne_chars (c : Char) (h : isDigitChar c = true) :
    c ≠ '-' ∧ c ≠ '+' ∧ c ≠ '.' ∧ c ≠ '_' ∧ c ≠ '\n' := by
  simp only [isDigitChar, Bool.and_eq_true, decide_eq_true_eq] at h
  refine ⟨?_, ?_, ?_, ?_, ?_⟩ <;> (intro hc; subst hc; simp at h)

theorem pyFloatParse_digits_dot_digits (d1 d2 : List Char) (h1 : d1 ≠ [])
    (hd1 : ∀ c ∈ d1, isDigitChar c = true) (hd2 : ∀ c ∈ d2, isDigitChar c = true) :
    pyFloatParse ⟨d1 ++ ('.' :: d2)⟩ =
      some (mkRat ((digitsVal d1 * 10 ^ d2.length + digitsVal d2 : ℕ) : ℤ) (10 ^ d2.length)) := by
  obtain ⟨a, t, rfl⟩ : ∃ a t, d1 = a :: t := by
    cases d1 with
    | nil => exact absurd rfl h1
    | cons a t => exact ⟨a, t, rfl⟩
  have hstrip : stripChars ((a :: t) ++ '.' :: d2) = (a :: t) ++ '.' :: d2 := by
    apply stripChars_eq_self
    intro c hc
    rcases List.mem_append.mp hc with hc1 | hc2
    · exact not_ws_of_digit c (hd1 c hc1)
    · rcases List.mem_cons.mp hc2 with rfl | hc3
      · exact dot_not_ws
      · exact not_ws_of_digit c (hd2 c hc3)
  have hne := digit_ne_chars a (hd1 a (by simp))
  have hplus : ((((a :: t) ++ '.' :: d2).head? == some '+') : Bool) = false := by
    simp only [List.cons_append, List.head?_cons, beq_eq_false_iff_ne]
    intro h
    exact hne.2.1 (Option.some.inj h)
  have hminus : ((((a :: t) ++ '.' :: d2).head? == some '-') : Bool) = false := by
    simp only [List.cons_append, List.head?_cons, beq_eq_false_iff_ne]
    intro h
    exact hne.1 (Option.some.inj h)
  have hscan1 : scanDigitsU ((a :: t) ++ '.' :: d2) 0 0 =
      (digitsVal (a :: t), 0 + (a :: t).length, '.' :: d2) := by
    rw [scanDigitsU_run _ _ _ _ hd1, scanDigitsU_stop]
    · rfl
    · intro c hc
      have hcd : c = '.' := by simpa using hc.symm
      subst hcd
      exact ⟨by decide, by decide⟩
  have hscan2 : scanDigitsU d2 0 0 = (digitsVal d2, 0 + d2.length, []) := by
    conv_lhs => rw [← List.append_nil d2]
    rw [scanDigitsU_run _ _ _ _ hd2, scanDigitsU_stop]
    · rfl
    · intro c hc
      simp at hc
  show pyFloatParse ⟨(a :: t) ++ '.' :: d2⟩ = _
  unfold pyFloatParse
  simp only [String.toList, hstrip, hplus, hminus, Bool.or_self, if_false, hscan1, hscan2,
    Bool.false_eq_true]
  have hlen : (a :: t).length + d2.length ≠ 0 := by simp
  simp only [Nat.zero_add] at *
  simp only [hlen, if_false]

theorem reFullDigits_decimal_false (d1 d2 rest : List Char) (h2 : d2 ≠ []) :
    reFullDigits ⟨d1 ++ ('.' :: (d2 ++ rest))⟩ = false := by
  have hx : d2 ++ rest ≠ [] := by
    cases d2 with
    | nil => exact absurd rfl h2
    | cons a t => simp
  have hmem : ∀ core : List Char, '.' ∈ core → core.all isDigitChar = false := by
    intro core hcore
    rcases hall : core.all isDigitChar with _ | _
    · rfl
    · have := (List.all_eq_true.mp hall) '.' hcore
      simp [isDigitChar] at this
  unfold reFullDigits
  simp only [String.toList]
  rcases hcond : (((d1 ++ '.' :: (d2 ++ rest)).getLast? == some '\n') : Bool) with _ | _
  · simp only [Bool.false_eq_true, if_false]
    rw [hmem _ (by simp), Bool.and_false]
  · simp only [if_true]
    obtain ⟨y, ys, hys⟩ : ∃ y ys, d2 ++ rest = ys ++ [y] := by
      rcases (d2 ++ rest).eq_nil_or_concat with h | ⟨ys, y, h⟩
      · exact absurd h hx
      · exact ⟨y, ys, by simpa [List.concat_eq_append] using h⟩
    rw [hys, ← List.cons_append, ← List.append_assoc, List.dropLast_concat]
    rw [hmem _ (by simp), Bool.and_false]

theorem reFloatScan_decimal_true (d1 d2 rest : List Char) (h1 : d1 ≠ []) (h2 : d2 ≠ [])
    (hd1 : ∀ c ∈ d1, isDigitChar c = true) (hd2 : ∀ c ∈ d2, isDigitChar c = true) :
    reFloatScan ⟨d1 ++ ('.' :: (d2 ++ rest))⟩ = true := by
  unfold reFloatScan
  simp only [String.toList]
  have htake : (d1 ++ '.' :: (d2 ++ rest)).takeWhile isDigitChar = d1 := by
    apply takeWhile_digits_append _ _ hd1
    intro c hc
    have : c = '.' := by simpa using hc.symm
    subst this
    decide
  have hdrop : (d1 ++ '.' :: (d2 ++ rest)).drop d1.length = '.' :: (d2 ++ rest) := by
    rw [List.drop_left]
  rw [htake, hdrop]
  obtain ⟨a, t, rfl⟩ : ∃ a t, d2 = a :: t := by
    cases d2 with
    | nil => exact absurd rfl h2
    | cons a t => exact ⟨a, t, rfl⟩
  simp [h1, hd2 a (by simp)]

theorem reFullDigits_of_digits (t : List Char) (h : t ≠ []) (hd : ∀ c ∈ t, isDigitChar c = true) :
    reFullDigits ⟨t⟩ = true ∧ pyIntOfDecimal ⟨t⟩ = ((digitsVal t : ℕ) : ℤ) := by
  obtain ⟨y, ys, hys⟩ : ∃ y ys, t = ys ++ [y] := by
    rcases t.eq_nil_or_concat with h' | ⟨ys, y, h'⟩
    · exact absurd h' h
    · exact ⟨y, ys, by simpa [List.concat_eq_append] using h'⟩
  have hy : isDigitChar y = true := hd y (by simp [hys])
  have hylast : t.getLast? = some y := by rw [hys]; simp
  have hcond : ((t.getLast? == some '\n') : Bool) = false := by
    rw [hylast, beq_eq_false_iff_ne]
    intro hcon
    obtain rfl := Option.some.inj hcon
    exact absurd hy (by decide)
  constructor
  · unfold reFullDigits
    simp only [String.toList, hcond, Bool.false_eq_true, if_false]
    rw [List.all_eq_true.mpr hd]
    cases t with
    | nil => exact absurd rfl h
    | cons a s => simp
  · unfold pyIntOfDecimal
    simp only [String.toList, hcond, Bool.false_eq_true, if_false]

/-- C2: for a string whose leading characters are digits, a dot and digits,
`autoformat` selects the float branch but applies `float()` to the WHOLE
string: trailing non-numeric characters raise `ValueError` (they are not
silently ignored); a full clean decimal literal yields its exact value;
all-digit strings become the integer; any other string is returned
unchanged. -/
theorem autoformat_coercion (d1 d2 rest : List Char) (h1 : d1 ≠ []) (h2 : d2 ≠ [])
    (hd1 : ∀ c ∈ d1, isDigitChar c = true) (hd2 : ∀ c ∈ d2, isDigitChar c = true) :
    (autoformat ⟨d1 ++ ('.' :: (d2 ++ rest))⟩ =
      (pyFloatParse ⟨d1 ++ ('.' :: (d2 ++ rest))⟩).map .PFloat) ∧
    (rest = [] →
      autoformat ⟨d1 ++ ('.' :: (d2 ++ rest))⟩ =
        some (.PFloat (mkRat ((digitsVal d1 * 10 ^ d2.length + digitsVal d2 : ℕ) : ℤ)
          (10 ^ d2.length)))) ∧
    (∀ t : List Char, t ≠ [] → (∀ c ∈ t, isDigitChar c = true) →
      autoformat ⟨t⟩ = some (.PInt ((digitsVal t : ℕ) : ℤ))) ∧
    (∀ s : String, reFullDigits s = false → reFloatScan s = false →
      autoformat s = some (.PStr s)) := by
  have hfloat : autoformat ⟨d1 ++ ('.' :: (d2 ++ rest))⟩ =
      (pyFloatParse ⟨d1 ++ ('.' :: (d2 ++ rest))⟩).map .PFloat := by
    unfold autoformat
    rw [reFullDigits_decimal_false d1 d2 rest h2, reFloatScan_decimal_true d1 d2 rest h1 h2 hd1 hd2]
    simp
  refine ⟨hfloat, ?_, ?_, ?_⟩
  · intro hrest
    subst hrest
    rw [hfloat]
    have := pyFloatParse_digits_dot_digits d1 d2 h1 hd1 hd2
    rw [show d1 ++ ('.' :: (d2 ++ [])) = d1 ++ ('.' :: d2) by simp, this]
    rfl
  · intro t ht hdt
    obtain ⟨hfull, hval⟩ := reFullDigits_of_digits t ht hdt
    unfold autoformat
    rw [hfull, hval]
    simp
  · intro s hf1 hf2
    unfold autoformat
    rw [hf1, hf2]
    simp

/-- C2 counterexample: the claim says `"12.34abc"` coerces to the float
12.34; in the code `float("12.34abc")` raises `ValueError` instead. -/
theorem autoformat_trailing_junk_raises : autoformat "12.34abc" = none := by decide

/-- C2 witness: the amended theorem applied at concrete inputs. -/
theorem autoformat_coercion_witness :
    autoformat "12.34abc" = (pyFloatParse "12.34abc").map PyVal.PFloat ∧
    autoformat "12.34" = some (.PFloat (mkRat 1234 100)) ∧
    autoformat "1234" = some (.PInt 1234) ∧
    autoformat "ABCD" = some (.PStr "ABCD") := by
  have h := autoformat_coercion ['1', '2'] ['3', '4'] ['a', 'b', 'c']
    (by decide) (by decide) (by decide) (by decide)
  have h0 := autoformat_coercion ['1', '2'] ['3', '4'] []
    (by decide) (by decide) (by decide) (by decide)
  refine ⟨h.1, ?_, ?_, ?_⟩
  · exact h0.2.1 rfl
  · exact h.2.2.1 ['1', '2', '3', '4'] (by decide) (by decide)
  · exact h.2.2.2 "ABCD" (by decide) (by decide)

/-- C7: the timestamp codec maps `211024195235S` to
`2021-10-24T19:52:35+02:00` and `211024195235W` to
`2021-10-24T19:52:35+01:00` (fixed offsets chosen by the trailing letter,
century fixed at 20), and raises on the empty string instead of returning
a default. -/
theorem convert_timestamp_dst_codes :
    convert_timestamp "211024195235S" = some "2021-10-24T19:52:35+02:00" ∧
    convert_timestamp "211024195235W" = some "2021-10-24T19:52:35+01:00" ∧
    convert_timestamp "" = none := by
  refine ⟨by decide, by decide, by decide⟩

theorem pyTrunc_nonneg (q : ℚ) (h : 0 ≤ q) : 0 ≤ pyTrunc q := by
  unfold pyTrunc
  rw [if_neg (by exact not_lt.mpr h)]
  exact Int.floor_nonneg.mpr h

theorem runOps_start_mem (ops : List (Bool × ℚ)) (ld : Load) (h : ops ≠ []) :
    ∃ p ∈ ops, (ld.runOps ops).state_start_time = some p.2 := by
  induction ops generalizing ld with
  | nil => exact absurd rfl h
  | cons op rest ih =>
    cases rest with
    | nil =>
      refine ⟨op, by simp, ?_⟩
      cases hop : op.1 <;> simp [Load.runOps, Load.on, Load.off, hop]
    | cons op2 rest2 =>
      obtain ⟨p, hp, hst⟩ := ih (if op.1 then ld.on op.2 else ld.off op.2) (by simp)
      refine ⟨p, by simp [hp], ?_⟩
      rw [← hst]
      cases hop : op.1 <;> simp [Load.runOps, hop]

/-- C9 counterexample: a freshly constructed load (no `on()`/`off()` yet)
reports `state_time = -1`, violating the claimed invariant
`state_time ≥ 0` over the whole lifetime. -/
theorem state_time_initially_negative :
    Load.init.state_time 0 = -1 ∧ ¬(0 ≤ Load.init.state_time 0) := by
  exact ⟨rfl, by decide⟩

/-- C9 amended: `state_time` is `-1` between construction and the first
transition, and is ≥ 0 at any moment from the first `on()`/`off()` call
onward, provided the clock reads at or after the transition times. -/
theorem state_time_nonneg_after_transition (ops : List (Bool × ℚ)) (now : ℚ)
    (hle : ∀ p ∈ ops, p.2 ≤ now) :
    (ops = [] → (Load.init.runOps ops).state_time now = -1) ∧
    (ops ≠ [] → 0 ≤ (Load.init.runOps ops).state_time now) := by
  constructor
  · intro h
    subst h
    rfl
  · intro h
    obtain ⟨p, hp, hst⟩ := runOps_start_mem ops Load.init h
    unfold Load.state_time
    rw [hst]
    exact pyTrunc_nonneg _ (by linarith [hle p hp])

/-- C9 witness: one `on()` at t=2, observed at t=5. -/
theorem state_time_nonneg_after_transition_witness :
    0 ≤ (Load.init.runOps [(true, 2)]).state_time 5 := by
  exact (state_time_nonneg_after_transition [(true, 2)] 5
    (by intro p hp; simp at hp; subst hp; decide)).2 (by simp)

/-- C3 (spec-modelled): with the load off, one reading with
`injected > switch_on_power` arriving once `state_time > hold_time`
switches the load on in that same `process()` call — the dwell time is the
only temporal gate, with no separate confirmation timer. -/
theorem turn_on_single_reading (now : ℚ) (record : Dict) (st : LoadState)
    (hoff : st.is_on = false)
    (hinj : injectedW record > st.cfg.switch_on_power)
    (hdwell : now - st.last_transition_time > st.cfg.hold_time) :
    processLoad now record st = st.on now ∧ (processLoad now record st).is_on = true ∧
    (processLoad now record st).last_transition_time = now := by
  have hcond : processLoad now record st = st.on now := by
    unfold processLoad
    rw [if_pos ⟨hoff, hinj, hdwell⟩]
  exact ⟨hcond, by rw [hcond]; rfl, by rw [hcond]; rfl⟩

/-- C3 witness: a load with `switch_on_power = 800` W and `hold_time = 3` s,
off since t=0, fed `actual_total_injection = 2` kW at t=5. -/
theorem turn_on_single_reading_witness :
    (processLoad 5 [("actual_total_injection", PyVal.PInt 2)]
        ⟨⟨"car charger", 2300, 800, -200, 3⟩, false, 0⟩).is_on = true := by
  exact (turn_on_single_reading 5 [("actual_total_injection", PyVal.PInt 2)]
    ⟨⟨"car charger", 2300, 800, -200, 3⟩, false, 0⟩ rfl (by decide)
    (by norm_num)).2.1

set_option maxHeartbeats 4000000

/-- C6: every line starting with `0-1:24.2.3` whose two slices coerce
without error stores BOTH fields sharing that prefix — `total_gas_consumption`
from offsets [26,35) and `gas_timestamp` from [11,24) — i.e. matching does
not stop at the first `FieldSpec` whose prefix matches. -/
theorem parse_gas_line_both_fields (now : String) (r : List Char) (v1 v2 : PyVal)
    (hsplit : pySplitlines (pyStrip ⟨"0-1:24.2.3".toList ++ r⟩) = [⟨"0-1:24.2.3".toList ++ r⟩])
    (hv1 : autoformat (pySlice ⟨"0-1:24.2.3".toList ++ r⟩ 26 35) = some v1)
    (hv2 : autoformat (pySlice ⟨"0-1:24.2.3".toList ++ r⟩ 11 24) = some v2) :
    parse now ⟨"0-1:24.2.3".toList ++ r⟩ =
      some [("gas_timestamp", v2), ("total_gas_consumption", v1),
        ("local_timestamp", .PStr now)] ∧
    (∀ d : Dict, parse now ⟨"0-1:24.2.3".toList ++ r⟩ = some d →
      dget d "total_gas_consumption" = some v1 ∧ dget d "gas_timestamp" = some v2) := by
  have hfold : ∀ m : Dict, parseLine ⟨"0-1:24.2.3".toList ++ r⟩ m =
      ((autoformat (pySlice ⟨"0-1:24.2.3".toList ++ r⟩ 26 35)).map
        (fun v => dput "total_gas_consumption" v m)).bind
        (fun m1 => ((autoformat (pySlice ⟨"0-1:24.2.3".toList ++ r⟩ 11 24)).map
          (fun v => dput "gas_timestamp" v m1)).bind some) := by
    intro m
    rfl
  have hparse : parse now ⟨"0-1:24.2.3".toList ++ r⟩ =
      some [("gas_timestamp", v2), ("total_gas_consumption", v1),
        ("local_timestamp", .PStr now)] := by
    unfold parse
    rw [hsplit]
    simp only [List.foldlM_cons, List.foldlM_nil, hfold, hv1, hv2, Option.map_some,
      Option.some_bind]
    rfl
  refine ⟨hparse, ?_⟩
  intro d hd
  rw [hparse] at hd
  obtain rfl := Option.some.inj hd
  exact ⟨rfl, rfl⟩

/-- C6 counterexample: a line with the gas prefix whose volume slice is a
decimal prefix with trailing junk makes `autoformat` raise, so `parse`
raises and NEITHER field is stored, contradicting the unconditional claim. -/
theorem parse_gas_line_coercion_failure :
    parse "T" "0-1:24.2.3(aaaaaaaaaaaaa)(12.34xy*m3)" = none := by decide

/-- C6 witness: a realistic gas line stores both fields. -/
theorem parse_gas_line_both_fields_witness :
    parse "X" "0-1:24.2.3(211024195005W)(00005.166*m3)" =
      some [("gas_timestamp", .PStr "211024195005W"),
        ("total_gas_consumption", .PFloat (mkRat 5166 1000)),
        ("local_timestamp", .PStr "X")] := by
  exact (parse_gas_line_both_fields "X" "(211024195005W)(00005.166*m3)".toList
    (.PFloat (mkRat 5166 1000)) (.PStr "211024195005W")
    (by decide) (by decide) (by decide)).1

theorem endMatch_false_of_start (s : String) (h : startMatch s = true) : endMatch s = false := by
  unfold startMatch at h
  simp only [Bool.and_eq_true, beq_iff_eq] at h
  unfold endMatch
  rw [h.1.1.1.1.1]
  simp

theorem read_serial_go_capture (driftOk : String → Bool) (now : String) (e : List ℕ)
    (hea : asciiLine e = true) (hee : endMatch (decodeAscii e) = true)
    (hes : startMatch (decodeAscii e) = false) :
    ∀ (body : List (List ℕ)) (tel : List ℕ),
      (∀ l ∈ body, asciiLine l = true ∧ startMatch (decodeAscii l) = false ∧
        endMatch (decodeAscii l) = false) →
      read_serial_go driftOk now true tel (body ++ [e]) =
        ([tel ++ (body.flatten ++ e)],
          (enqueueStep driftOk now (tel ++ (body.flatten ++ e))).toList) := by
  intro body
  induction body with
  | nil =>
    intro tel _
    simp only [List.nil_append, List.flatten_nil]
    simp only [read_serial_go, rsBuf, hea, if_true, hes, Bool.false_eq_true, if_false, if_true,
      hee]
    cases h : enqueueStep driftOk now (tel ++ e) <;> simp [h, Option.toList]
  | cons b bs ih =>
    intro tel hbody
    obtain ⟨hba, hbs, hbe⟩ := hbody b (by simp)
    simp only [List.cons_append]
    simp only [read_serial_go, rsBuf, hba, if_true, hbs, Bool.false_eq_true, if_false, hbe]
    rw [ih (tel ++ b) (fun l hl => hbody l (by simp [hl]))]
    simp [List.append_assoc]

/-- C8: a start marker seen while already capturing discards the buffer in
progress and restarts capture; two consecutive start markers with no end
marker between them, followed by non-marker body lines and one end marker,
yield exactly one candidate frame, made of the lines from the second start
marker onward. -/
theorem framer_resync (driftOk : String → Bool) (now : String) (s1 s2 e : List ℕ)
    (body : List (List ℕ))
    (h1a : asciiLine s1 = true) (h1s : startMatch (decodeAscii s1) = true)
    (h2a : asciiLine s2 = true) (h2s : startMatch (decodeAscii s2) = true)
    (hea : asciiLine e = true) (hee : endMatch (decodeAscii e) = true)
    (hes : startMatch (decodeAscii e) = false)
    (hbody : ∀ l ∈ body, asciiLine l = true ∧ startMatch (decodeAscii l) = false ∧
      endMatch (decodeAscii l) = false) :
    read_serial_frames driftOk now (s1 :: s2 :: (body ++ [e])) = [s2 ++ (body.flatten ++ e)] := by
  unfold read_serial_frames
  simp only [read_serial_go, rsBuf, h1a, if_true, h1s,
    endMatch_false_of_start _ h1s, Bool.false_eq_true, if_false,
    h2a, h2s, endMatch_false_of_start _ h2s]
  rw [read_serial_go_capture driftOk now e hea hee hes body s2 hbody]

/-- C8 witness: two start markers, one body line, one end marker. -/
theorem framer_resync_witness :
    read_serial_frames (fun _ => true) "X"
      [toBytes "/FLU5\\x", toBytes "/FLU5\\y", toBytes "b", toBytes "!ABCD"] =
      [toBytes "/FLU5\\y" ++ (List.flatten [toBytes "b"] ++ toBytes "!ABCD")] := by
  exact framer_resync (fun _ => true) "X" (toBytes "/FLU5\\x") (toBytes "/FLU5\\y")
    (toBytes "!ABCD") [toBytes "b"] (by decide) (by decide) (by decide) (by decide)
    (by decide) (by decide) (by decide)
    (by intro l hl; simp at hl; subst hl; exact ⟨by decide, by decide, by decide⟩)

theorem enqueueStep_sound (driftOk : String → Bool) (now : String) (tel : List ℕ) (d : Dict)
    (h : enqueueStep driftOk now tel = some d) :
    check_msg tel = true ∧ parse now (decodeAscii tel) = some d := by
  unfold enqueueStep at h
  split at h
  · split at h
    · exact absurd h (by simp)
    · split at h
      · exact absurd h (by simp)
      · split at h
        · obtain rfl := Option.some.inj h
          exact ⟨by assumption, by assumption⟩
        · exact absurd h (by simp)
  · exact absurd h (by simp)

theorem read_serial_go_msgs_sound (driftOk : String → Bool) (now : String) :
    ∀ (lines : List (List ℕ)) (flag : Bool) (tel : List ℕ) (d : Dict),
      d ∈ (read_serial_go driftOk now flag tel lines).2 →
      ∃ t : List ℕ, check_msg t = true ∧ parse now (decodeAscii t) = some d := by
  intro lines
  induction lines with
  | nil => intro flag tel d hd; simp [read_serial_go] at hd
  | cons line rest ih =>
    intro flag tel d hd
    rw [read_serial_go] at hd
    rcases ha : asciiLine line with _ | _
    · rw [ha] at hd
      simp only [Bool.false_eq_true, if_false] at hd
      exact ih false tel d hd
    · rw [ha] at hd
      rw [if_pos rfl] at hd
      rcases he : endMatch (decodeAscii line) with _ | _
      · rw [he] at hd
        simp only [Bool.false_eq_true, if_false] at hd
        exact ih _ _ d hd
      · rw [he] at hd
        rw [if_pos rfl] at hd
        rcases henq : enqueueStep driftOk now (rsBuf flag tel line (decodeAscii line)).2
          with _ | d0
        · rw [henq] at hd
          exact ih _ _ d hd
        · rw [henq] at hd
          rcases List.mem_cons.mp hd with rfl | hd2
          · obtain ⟨hcm, hpr⟩ := enqueueStep_sound driftOk now _ d henq
            exact ⟨_, hcm, hpr⟩
          · exact ih _ _ d hd2

/-- C1 amended: for the live serial reader, a record reaching the message
queue always comes from a telegram that passed `check_msg`, and it is the
parse of that telegram (frames failing validation are never parsed into an
enqueued record).  The replay-file reader does not have this property; see
the counterexample. -/
theorem read_serial_only_validated (driftOk : String → Bool) (now : String)
    (lines : List (List ℕ)) (d : Dict) (hd : d ∈ read_serial_msgs driftOk now lines) :
    ∃ tel : List ℕ, check_msg tel = true ∧ parse now (decodeAscii tel) = some d := by
  exact read_serial_go_msgs_sound driftOk now lines false [] d hd

/-- C1 counterexample: `fake_serial` enqueues the parse of a framed
telegram whose CRC validation fails (`check_msg` is never called on the
replay path), so the invariant quantified over both byte sources is false. -/
theorem fake_serial_enqueues_invalid_frame :
    fake_serial_msgs "T" ["/FLU5\\x\n", "!ABCD\n"] =
      some [[("local_timestamp", PyVal.PStr "T")]] ∧
    check_msg (toBytes ("/FLU5\\x\n" ++ "!ABCD\n")) = false := by
  exact ⟨by decide, by decide⟩

/-- C1 witness: a valid frame read from the serial line is enqueued, and
the theorem recovers its validated source telegram. -/
theorem read_serial_only_validated_witness :
    [("timestamp", PyVal.PStr "211024195235S"), ("local_timestamp", PyVal.PStr "X")] ∈
      read_serial_msgs (fun _ => true) "X"
        [toBytes "/FLU5\\x\r\n", toBytes "0-0:1.0.0(211024195235S)\r\n", toBytes "!C535\r\n"] ∧
    ∃ tel : List ℕ, check_msg tel = true ∧ parse "X" (decodeAscii tel) =
      some [("timestamp", PyVal.PStr "211024195235S"), ("local_timestamp", PyVal.PStr "X")] := by
  refine ⟨by decide, ?_⟩
  exact read_serial_only_validated (fun _ => true) "X"
    [toBytes "/FLU5\\x\r\n", toBytes "0-0:1.0.0(211024195235S)\r\n", toBytes "!C535\r\n"]
    [("timestamp", PyVal.PStr "211024195235S"), ("local_timestamp", PyVal.PStr "X")]
    (by decide)

theorem hexDigitVal_hexCharL (d : ℕ) (h : d < 16) : hexDigitVal? (hexCharL d) = some d := by
  unfold hexCharL hexDigitVal?
  split_ifs with h1 h2 h3 h4 h5 h6 h7 <;> simp_all <;> omega

theorem unhexVal_append (l : List ℕ) (c : ℕ) :
    unhexVal (l ++ [c]) = 16 * unhexVal l + (hexDigitVal? c).getD 0 := by
  unfold unhexVal
  rw [List.foldl_append]
  rfl

theorem unhexVal_natHexAuxF (fuel : ℕ) : ∀ n ≤ fuel, unhexVal (natHexAuxF fuel n) = n := by
  induction fuel with
  | zero =>
    intro n hn
    interval_cases n
    rfl
  | succ f ih =>
    intro n hn
    unfold natHexAuxF
    rcases eq_or_ne n 0 with rfl | h0
    · simp [unhexVal]
    · rw [if_neg h0, unhexVal_append, ih (n / 16) (by omega),
        hexDigitVal_hexCharL _ (Nat.mod_lt _ (by omega))]
      simp only [Option.getD_some]
      omega

theorem unhexVal_natHexStr (n : ℕ) : unhexVal (natHexStr n) = n := by
  unfold natHexStr
  rcases eq_or_ne n 0 with rfl | h0
  · rfl
  · rw [if_neg h0]
    exact unhexVal_natHexAuxF n n le_rfl

theorem pyHex_inj (z w : ℤ) (h : pyHex z = pyHex w) : z = w := by
  unfold pyHex at h
  split_ifs at h with hz hw hw
  · have := congrArg unhexVal (List.cons.inj (List.cons.inj (List.cons.inj h).2).2).2
    rw [unhexVal_natHexStr, unhexVal_natHexStr] at this
    have hz' : ((-z).toNat : ℤ) = -z := Int.toNat_of_nonneg (by omega)
    have hw' : ((-w).toNat : ℤ) = -w := Int.toNat_of_nonneg (by omega)
    omega
  · exact absurd (List.cons.inj h).1 (by decide)
  · exact absurd (List.cons.inj h).1 (by decide)
  · have := congrArg unhexVal (List.cons.inj (List.cons.inj h).2).2
    rw [unhexVal_natHexStr, unhexVal_natHexStr] at this
    have hz' : (z.toNat : ℤ) = z := Int.toNat_of_nonneg (by omega)
    have hw' : (w.toNat : ℤ) = w := Int.toNat_of_nonneg (by omega)
    omega

theorem check_msg_true_iff (raw : List ℕ) :
    check_msg raw = true ↔
      pyIntHex (stripWs (bangRest raw)) = some ((crc16 (bangData raw) : ℕ) : ℤ) := by
  unfold check_msg
  rcases hp : pyIntHex (stripWs (bangRest raw)) with _ | v
  · simp
  · simp only [beq_iff_eq, Option.some.injEq]
    constructor
    · intro h
      exact pyHex_inj _ _ h
    · intro h
      rw [h]

/-- C4: `check_msg` succeeds iff the CRC16 over all bytes up to and
including the first `!` equals the hexadecimal integer parsed from the
bytes after the `!` (the source compares the two as Python `hex()`
strings, which is the same test); a malformed (non-hex) trailing checksum
yields failure, not an exception. -/
theorem check_msg_crc_iff (raw : List ℕ) :
    (check_msg raw = true ↔
      pyIntHex (stripWs (bangRest raw)) = some ((crc16 (bangData raw) : ℕ) : ℤ)) ∧
    (pyIntHex (stripWs (bangRest raw)) = none → check_msg raw = false) := by
  refine ⟨check_msg_true_iff raw, ?_⟩
  intro h
  unfold check_msg
  rw [h]

/-- C4 witness: a frame with matching CRC validates; a frame whose
trailing checksum is not hexadecimal fails instead of raising. -/
theorem check_msg_crc_iff_witness :
    check_msg (toBytes "ab!A6B8") = true ∧ check_msg (toBytes "!ZZZZ") = false := by
  exact ⟨(check_msg_crc_iff (toBytes "ab!A6B8")).1.mpr (by decide),
    (check_msg_crc_iff (toBytes "!ZZZZ")).2 (by decide)⟩

theorem findIdx?_none_of_all_false (p : ℕ → Bool) (t : List ℕ) (h : ∀ b ∈ t, p b = false) :
    ∀ i : ℕ, List.findIdx? p t i = none := by
  induction t with
  | nil => intro i; rfl
  | cons a s ih =>
    intro i
    rw [List.findIdx?_cons, h a (by simp), if_neg (by simp)]
    exact ih (fun b hb => h b (by simp [hb])) (i + 1)

theorem bangIdx_none (raw : List ℕ) (h : ∀ b ∈ raw, b ≠ bangByte) : bangIdx raw = none := by
  unfold bangIdx
  exact findIdx?_none_of_all_false _ raw
    (fun b hb => beq_eq_false_iff_ne.mpr (h b hb)) 0

/-- C10: `check_msg` is total — with no `!` in the message at all, Python's
`find` returns -1, the data slice is empty and the whole message is parsed
as the checksum, so the call returns a boolean (success iff the message
itself parses as the CRC16 of the empty string) instead of raising. -/
theorem check_msg_no_bang (raw : List ℕ) (h : ∀ b ∈ raw, b ≠ bangByte) :
    check_msg raw = true ↔ pyIntHex (stripWs raw) = some ((crc16 [] : ℕ) : ℤ) := by
  have hb := bangIdx_none raw h
  have h1 : bangData raw = [] := by unfold bangData; rw [hb]
  have h2 : bangRest raw = raw := by unfold bangRest; rw [hb]
  have := check_msg_true_iff raw
  rw [h1, h2] at this
  exact this

/-- C10 witness: the one-byte message `b"0"` has no `!`; the empty-prefix
CRC16 is 0 and `int(b"0", 16) = 0`, so `check_msg` returns True. -/
theorem check_msg_no_bang_witness : check_msg [0x30] = true := by
  exact (check_msg_no_bang [0x30] (by decide)).mpr (by decide)

theorem xor_div_two (a b : ℕ) : (a ^^^ b) / 2 = a / 2 ^^^ b / 2 := by
  apply Nat.eq_of_testBit_eq
  intro i
  rw [Nat.testBit_div_two, Nat.testBit_xor, Nat.testBit_xor, Nat.testBit_div_two,
    Nat.testBit_div_two]

theorem xor_xor_cancel (x y p : ℕ) : (x ^^^ p) ^^^ (y ^^^ p) = x ^^^ y := by
  rw [Nat.xor_comm y p, ← Nat.xor_assoc, Nat.xor_assoc x p p, Nat.xor_self, Nat.xor_zero]

theorem mod_two_xor (a b : ℕ) : (a ^^^ b) % 2 = if a % 2 = b % 2 then 0 else 1 := by
  have h := Nat.testBit_xor a b 0
  simp only [Nat.testBit_zero] at h
  rcases Nat.mod_two_eq_zero_or_one a with ha | ha <;>
    rcases Nat.mod_two_eq_zero_or_one b with hb | hb <;>
      simp [ha, hb] at h ⊢ <;> omega

theorem bitstep_xor (a b : ℕ) : bitstep (a ^^^ b) = bitstep a ^^^ bitstep b := by
  unfold bitstep
  have hx := mod_two_xor a b
  rcases Nat.mod_two_eq_zero_or_one a with ha | ha <;>
    rcases Nat.mod_two_eq_zero_or_one b with hb | hb
  · rw [ha, hb, if_pos rfl] at hx
    rw [if_neg (show ¬(a ^^^ b) % 2 = 1 by omega), if_neg (show ¬a % 2 = 1 by omega),
      if_neg (show ¬b % 2 = 1 by omega), xor_div_two]
  · rw [ha, hb, if_neg (by omega)] at hx
    rw [if_pos hx, if_neg (show ¬a % 2 = 1 by omega), if_pos hb, xor_div_two, Nat.xor_assoc]
  · rw [ha, hb, if_neg (by omega)] at hx
    rw [if_pos hx, if_pos ha, if_neg (show ¬b % 2 = 1 by omega), xor_div_two,
      Nat.xor_assoc (a / 2) (b / 2) 0xA001, Nat.xor_comm (b / 2) 0xA001,
      ← Nat.xor_assoc (a / 2) 0xA001 (b / 2)]
  · rw [ha, hb, if_pos rfl] at hx
    rw [if_neg (show ¬(a ^^^ b) % 2 = 1 by omega), if_pos ha, if_pos hb, xor_div_two,
      xor_xor_cancel]

theorem xor_mix (s t b c : ℕ) : (s ^^^ t) ^^^ (b ^^^ c) = (s ^^^ b) ^^^ (t ^^^ c) := by
  rw [Nat.xor_assoc, Nat.xor_assoc, ← Nat.xor_assoc t b c, Nat.xor_comm t b,
    Nat.xor_assoc b t c]

theorem crcByteStep_xor (s t b c : ℕ) :
    crcByteStep (s ^^^ t) (b ^^^ c) = crcByteStep s b ^^^ crcByteStep t c := by
  unfold crcByteStep
  rw [xor_mix]
  simp only [bitstep_xor]

theorem foldl_crc_xor (l1 : List ℕ) :
    ∀ (l2 : List ℕ), l1.length = l2.length → ∀ s t : ℕ,
      List.foldl crcByteStep (s ^^^ t) (List.zipWith (· ^^^ ·) l1 l2) =
        List.foldl crcByteStep s l1 ^^^ List.foldl crcByteStep t l2 := by
  induction l1 with
  | nil =>
    intro l2 h s t
    cases l2 with
    | nil => simp
    | cons b t2 => simp at h
  | cons a t1 ih =>
    intro l2 h s t
    cases l2 with
    | nil => simp at h
    | cons b t2 =>
      simp only [List.zipWith_cons_cons, List.foldl_cons]
      rw [crcByteStep_xor, ih t2 (by simpa using h)]

theorem zipWith_xor_zero (l : List ℕ) :
    List.zipWith (· ^^^ ·) l (List.replicate l.length 0) = l := by
  induction l with
  | nil => rfl
  | cons a t ih => simp only [List.length_cons, List.replicate_succ,
      List.zipWith_cons_cons, Nat.xor_zero, ih]

theorem set_eq_zipWith_err (l : List ℕ) :
    ∀ i v : ℕ, i < l.length →
      l.set i (l.getD i 0 ^^^ v) = List.zipWith (· ^^^ ·) l (errList l.length i v) := by
  induction l with
  | nil => intro i v h; simp at h
  | cons a t ih =>
    intro i v h
    cases i with
    | zero =>
      unfold errList
      simp only [List.length_cons, List.replicate_succ, List.set_cons_zero,
        List.getD_cons_zero, List.zipWith_cons_cons]
      rw [zipWith_xor_zero]
    | succ j =>
      unfold errList at ih ⊢
      simp only [List.length_cons, List.replicate_succ, List.set_cons_succ,
        List.getD_cons_succ, List.zipWith_cons_cons, Nat.xor_zero]
      rw [ih j v (by simpa using h)]

theorem bitstep_lt (s : ℕ) (h : s < 65536) : bitstep s < 65536 := by
  unfold bitstep
  split_ifs
  · rw [show (65536 : ℕ) = 2 ^ 16 from by norm_num]
    exact Nat.xor_lt_two_pow (by omega) (by norm_num)
  · omega

theorem bitstep_props (s : ℕ) (h0 : s ≠ 0) (h : s < 65536) :
    bitstep s ≠ 0 ∧ bitstep s < 65536 := by
  refine ⟨?_, bitstep_lt s h⟩
  unfold bitstep
  split_ifs with hodd
  · intro hcon
    have := Nat.xor_eq_zero.mp hcon
    omega
  · omega

theorem bitstep8_props (s : ℕ) (h0 : s ≠ 0) (h : s < 65536) :
    bitstep (bitstep (bitstep (bitstep (bitstep (bitstep (bitstep (bitstep s))))))) ≠ 0 ∧
    bitstep (bitstep (bitstep (bitstep (bitstep (bitstep (bitstep (bitstep s))))))) < 65536 := by
  obtain ⟨a1, b1⟩ := bitstep_props s h0 h
  obtain ⟨a2, b2⟩ := bitstep_props _ a1 b1
  obtain ⟨a3, b3⟩ := bitstep_props _ a2 b2
  obtain ⟨a4, b4⟩ := bitstep_props _ a3 b3
  obtain ⟨a5, b5⟩ := bitstep_props _ a4 b4
  obtain ⟨a6, b6⟩ := bitstep_props _ a5 b5
  obtain ⟨a7, b7⟩ := bitstep_props _ a6 b6
  exact bitstep_props _ a7 b7

theorem bitstep8_lt (s : ℕ) (h : s < 65536) :
    bitstep (bitstep (bitstep (bitstep (bitstep (bitstep (bitstep (bitstep s))))))) < 65536 :=
  bitstep_lt _ (bitstep_lt _ (bitstep_lt _ (bitstep_lt _ (bitstep_lt _ (bitstep_lt _
    (bitstep_lt _ (bitstep_lt _ h)))))))

theorem crcByteStep_zero_props (s : ℕ) (h0 : s ≠ 0) (h : s < 65536) :
    crcByteStep s 0 ≠ 0 ∧ crcByteStep s 0 < 65536 := by
  unfold crcByteStep
  rw [Nat.xor_zero]
  exact bitstep8_props s h0 h

theorem foldl_crc_zeros (k : ℕ) : List.foldl crcByteStep 0 (List.replicate k 0) = 0 := by
  induction k with
  | zero => rfl
  | succ m ih => simpa [List.replicate_succ] using ih

theorem foldl_crc_zeros_preserve (k : ℕ) :
    ∀ s : ℕ, s ≠ 0 → s < 65536 → List.foldl crcByteStep s (List.replicate k 0) ≠ 0 := by
  induction k with
  | zero => intro s h0 _; simpa using h0
  | succ m ih =>
    intro s h0 h
    obtain ⟨a, b⟩ := crcByteStep_zero_props s h0 h
    simpa [List.replicate_succ] using ih _ a b

theorem replicate_set (n i v : ℕ) (h : i < n) :
    (List.replicate n (0 : ℕ)).set i v =
      List.replicate i 0 ++ v :: List.replicate (n - i - 1) 0 := by
  rw [List.set_eq_take_append_cons_drop, if_pos (by simpa using h), List.take_replicate,
    List.drop_replicate]
  congr 2
  omega

theorem crc16_err_ne (n i v : ℕ) (hi : i < n) (hv0 : v ≠ 0) (hvlt : v < 65536) :
    crc16 (errList n i v) ≠ 0 := by
  unfold crc16 errList
  rw [replicate_set n i v hi, List.foldl_append, foldl_crc_zeros, List.foldl_cons]
  have h1 : crcByteStep 0 v ≠ 0 ∧ crcByteStep 0 v < 65536 := by
    unfold crcByteStep
    rw [Nat.zero_xor]
    exact bitstep8_props v hv0 hvlt
  exact foldl_crc_zeros_preserve _ _ h1.1 h1.2

theorem crc16_lt_aux (l : List ℕ) (h : ∀ b ∈ l, b < 256) :
    ∀ s : ℕ, s < 65536 → List.foldl crcByteStep s l < 65536 := by
  induction l with
  | nil => intro s hs; simpa using hs
  | cons a t ih =>
    intro s hs
    simp only [List.foldl_cons]
    apply ih (fun b hb => h b (by simp [hb]))
    unfold crcByteStep
    apply bitstep8_lt
    rw [show (65536 : ℕ) = 2 ^ 16 from by norm_num]
    exact Nat.xor_lt_two_pow (by omega) (by have := h a (by simp); omega)

theorem crc16_lt (l : List ℕ) (h : ∀ b ∈ l, b < 256) : crc16 l < 65536 :=
  crc16_lt_aux l h 0 (by norm_num)

theorem crc16_flip_ne (content : List ℕ) (i b : ℕ) (hi : i < content.length) (hb : b < 8) :
    crc16 (flipBit content i b) ≠ crc16 content := by
  unfold flipBit
  rw [set_eq_zipWith_err content i (2 ^ b) hi]
  intro hcon
  have hlen : content.length = (errList content.length i (2 ^ b)).length := by
    unfold errList
    simp
  have hfold := foldl_crc_xor content _ hlen 0 0
  rw [Nat.xor_self] at hfold
  unfold crc16 at hcon
  rw [hfold] at hcon
  have herr : crc16 (errList content.length i (2 ^ b)) ≠ 0 := by
    apply crc16_err_ne _ _ _ hi (by positivity)
    have h7 : (2 : ℕ) ^ b ≤ 2 ^ 7 := Nat.pow_le_pow_right (by norm_num) (by omega)
    omega
  apply herr
  have hcc : List.foldl crcByteStep 0 content = crc16 content := rfl
  have hce : List.foldl crcByteStep 0 (errList content.length i (2 ^ b)) =
      crc16 (errList content.length i (2 ^ b)) := rfl
  rw [hcc, hce] at hcon
  have h2 := congrArg (fun x => crc16 content ^^^ x) hcon
  simp only at h2
  rwa [← Nat.xor_assoc, Nat.xor_self, Nat.zero_xor] at h2

theorem hexCharU_range (d : ℕ) (h : d < 16) :
    (0x30 ≤ hexCharU d ∧ hexCharU d ≤ 0x39) ∨ (0x41 ≤ hexCharU d ∧ hexCharU d ≤ 0x46) := by
  unfold hexCharU
  split_ifs <;> omega

theorem hexDigitVal_hexCharU (d : ℕ) (h : d < 16) : hexDigitVal? (hexCharU d) = some d := by
  unfold hexCharU hexDigitVal?
  split_ifs with h1 h2 h3 h4 h5 h6 h7 <;> simp_all <;> omega

theorem hex4_mem (n : ℕ) (x : ℕ) (h : x ∈ hex4 n) :
    (0x30 ≤ x ∧ x ≤ 0x39) ∨ (0x41 ≤ x ∧ x ≤ 0x46) := by
  unfold hex4 at h
  simp only [List.mem_cons, List.mem_singleton, List.not_mem_nil, or_false] at h
  rcases h with rfl | rfl | rfl | rfl <;>
    exact hexCharU_range _ (Nat.mod_lt _ (by norm_num))

theorem hex4_not_ws (n : ℕ) (x : ℕ) (h : x ∈ hex4 n) : isWsByte x = false := by
  rcases hex4_mem n x h with ⟨h1, h2⟩ | ⟨h1, h2⟩ <;>
    · unfold isWsByte
      simp only [Bool.or_eq_false_iff, beq_eq_false_iff_ne]
      omega

theorem hex4_not_bang (n : ℕ) (x : ℕ) (h : x ∈ hex4 n) : x ≠ bangByte := by
  rcases hex4_mem n x h with ⟨h1, h2⟩ | ⟨h1, h2⟩ <;> (unfold bangByte; omega)

theorem stripWs_eq_self (l : List ℕ) (h : ∀ c ∈ l, isWsByte c = false) :
    stripWs l = l := by
  have h1 : List.dropWhile isWsByte l = l := by
    cases l with
    | nil => rfl
    | cons a t => simp [List.dropWhile_cons, h a (by simp)]
  have h2 : List.dropWhile isWsByte l.reverse = l.reverse := by
    cases hr : l.reverse with
    | nil => rfl
    | cons a t =>
      have ha : a ∈ l := by rw [← List.mem_reverse, hr]; simp
      simp [List.dropWhile_cons, h a ha]
  unfold stripWs
  rw [h1, h2, List.reverse_reverse]

theorem mem_dropWhile_of_mem (p : ℕ → Bool) (b : ℕ) (hb : p b = false) :
    ∀ l : List ℕ, b ∈ l → b ∈ l.dropWhile p := by
  intro l
  induction l with
  | nil => intro h; simp at h
  | cons a t ih =>
    intro h
    rw [List.dropWhile_cons]
    rcases ha : p a with _ | _
    · simpa using h
    · rcases List.mem_cons.mp h with rfl | hmem
      · rw [hb] at ha
        simp at ha
      · simpa using ih hmem

theorem mem_stripWs (b : ℕ) (hb : isWsByte b = false) (l : List ℕ) (h : b ∈ l) :
    b ∈ stripWs l := by
  unfold stripWs
  rw [List.mem_reverse]
  exact mem_dropWhile_of_mem _ _ hb _ (List.mem_reverse.mpr (mem_dropWhile_of_mem _ _ hb _ h))

theorem scanHexDigits_bang (l : List ℕ) :
    ∀ (p s : Bool) (a : ℕ), bangByte ∈ l → scanHexDigits l p s a = none := by
  induction l with
  | nil => intro p s a h; simp at h
  | cons c cs ih =>
    intro p s a h
    rcases List.mem_cons.mp h with rfl | hmem
    · cases cs with
      | nil => rfl
      | cons c2 cs2 => rfl
    · show (match hexDigitVal? c, cs with
        | some d, _ => scanHexDigits cs true true (16 * a + d)
        | none, c2 :: _ =>
          if c == 0x5f && (p && (hexDigitVal? c2).isSome) then scanHexDigits cs false s a
          else none
        | none, [] => none) = none
      rcases hv : hexDigitVal? c with _ | d
      · cases cs with
        | nil => simp at hmem
        | cons c2 cs2 =>
          dsimp only
          split_ifs with hc
          · exact ih _ _ _ hmem
          · rfl
      · exact ih _ _ _ hmem

theorem pyIntHexCore_bang (sign : ℤ) (body : List ℕ) (h : bangByte ∈ body) :
    pyIntHexCore sign body = none := by
  unfold pyIntHexCore
  cases body with
  | nil => simp at h
  | cons b0 rest2 =>
    cases rest2 with
    | nil =>
      obtain rfl : bangByte = b0 := by simpa using h
      rw [scanHexDigits_bang _ _ _ _ (by simp)]
      rfl
    | cons b1 tail =>
      dsimp only
      split_ifs with hpre
      · simp only [Bool.and_eq_true, Bool.or_eq_true, beq_iff_eq] at hpre
        have hbang : bangByte ∈ tail := by
          rcases List.mem_cons.mp h with rfl | h2
          · exact absurd hpre.1 (by unfold bangByte; omega)
          · rcases List.mem_cons.mp h2 with rfl | h3
            · rcases hpre.2 with he | he <;> exact absurd he (by unfold bangByte; omega)
            · exact h3
        rw [scanHexDigits_bang _ _ _ _ hbang]
        rfl
      · rw [scanHexDigits_bang _ _ _ _ h]
        rfl

theorem pyIntHex_bang (l : List ℕ) (h : bangByte ∈ l) : pyIntHex l = none := by
  unfold pyIntHex
  cases l with
  | nil => simp at h
  | cons c rest =>
    apply pyIntHexCore_bang
    split_ifs with hsign
    · rcases List.mem_cons.mp h with rfl | hmem
      · simp only [Bool.or_eq_true, beq_iff_eq] at hsign
        rcases hsign with he | he <;> exact absurd he (by unfold bangByte; omega)
      · exact hmem
    · exact h

theorem beq_nat_false_of_ne (x y : ℕ) (h : x ≠ y) : ((x == y) : Bool) = false :=
  beq_eq_false_iff_ne.mpr h

theorem scanHexDigits_digit_step (c : ℕ) (d : ℕ) (hv : hexDigitVal? c = some d)
    (cs : List ℕ) (p s : Bool) (a : ℕ) :
    scanHexDigits (c :: cs) p s a = scanHexDigits cs true true (16 * a + d) := by
  show (match hexDigitVal? c, cs with
    | some d, _ => scanHexDigits cs true true (16 * a + d)
    | none, c2 :: _ =>
      if c == 0x5f && (p && (hexDigitVal? c2).isSome) then scanHexDigits cs false s a
      else none
    | none, [] => none) = scanHexDigits cs true true (16 * a + d)
  rw [hv]

theorem pyIntHex_hex4 (n : ℕ) (h : n < 65536) : pyIntHex (hex4 n) = some (n : ℤ) := by
  have h3 : n / 4096 % 16 < 16 := Nat.mod_lt _ (by norm_num)
  have h2 : n / 256 % 16 < 16 := Nat.mod_lt _ (by norm_num)
  have h1 : n / 16 % 16 < 16 := Nat.mod_lt _ (by norm_num)
  have h0 : n % 16 < 16 := Nat.mod_lt _ (by norm_num)
  have hr3 := hexCharU_range _ h3
  have hr2 := hexCharU_range _ h2
  unfold hex4 pyIntHex
  dsimp only
  rw [beq_nat_false_of_ne _ _ (by omega), beq_nat_false_of_ne _ _ (by omega)]
  simp only [Bool.or_self, Bool.false_eq_true, if_false]
  unfold pyIntHexSign
  rw [beq_nat_false_of_ne _ _ (by omega), beq_nat_false_of_ne _ _ (by omega)]
  simp only [Bool.false_eq_true, if_false]
  unfold pyIntHexCore
  dsimp only
  rw [beq_nat_false_of_ne (hexCharU (n / 256 % 16)) 0x78 (by omega),
    beq_nat_false_of_ne (hexCharU (n / 256 % 16)) 0x58 (by omega)]
  simp only [Bool.or_self, Bool.and_false, Bool.false_eq_true, if_false]
  rw [scanHexDigits_digit_step _ _ (hexDigitVal_hexCharU _ h3),
    scanHexDigits_digit_step _ _ (hexDigitVal_hexCharU _ h2),
    scanHexDigits_digit_step _ _ (hexDigitVal_hexCharU _ h1),
    scanHexDigits_digit_step _ _ (hexDigitVal_hexCharU _ h0)]
  show Option.map _ (if true = true then some _ else none) = _
  rw [if_pos rfl]
  simp only [Option.map_some, one_mul, Option.some.injEq]
  have : 16 * (16 * (16 * (16 * 0 + n / 4096 % 16) + n / 256 % 16) + n / 16 % 16) + n % 16
      = n := by omega
  rw [this]
  rfl

theorem findIdx?_append_all_false (p : ℕ → Bool) (pre : List ℕ)
    (h : ∀ b ∈ pre, p b = false) :
    ∀ (rest : List ℕ) (i : ℕ),
      List.findIdx? p (pre ++ rest) i = List.findIdx? p rest (i + pre.length) := by
  induction pre with
  | nil => intro rest i; simp
  | cons a t ih =>
    intro rest i
    rw [List.cons_append, List.findIdx?_cons, h a (by simp), if_neg (by simp),
      ih (fun b hb => h b (by simp [hb])) rest (i + 1)]
    congr 1
    simp
    omega

theorem bangIdx_concat (pre suffix : List ℕ) (h : ∀ b ∈ pre, b ≠ bangByte) :
    bangIdx (pre ++ bangByte :: suffix) = some pre.length := by
  unfold bangIdx
  rw [findIdx?_append_all_false _ pre (fun b hb => beq_nat_false_of_ne _ _ (h b hb)),
    List.findIdx?_cons, if_pos (by simp)]
  simp

theorem bangData_concat (pre suffix : List ℕ) (h : ∀ b ∈ pre, b ≠ bangByte) :
    bangData (pre ++ bangByte :: suffix) = pre ++ [bangByte] := by
  unfold bangData
  rw [bangIdx_concat pre suffix h]
  dsimp only
  rw [List.take_append_eq_append_take, List.take_of_length_le (by omega)]
  congr 1
  rw [show pre.length + 1 - pre.length = 1 from by omega]
  rfl

theorem bangRest_concat (pre suffix : List ℕ) (h : ∀ b ∈ pre, b ≠ bangByte) :
    bangRest (pre ++ bangByte :: suffix) = suffix := by
  unfold bangRest
  rw [bangIdx_concat pre suffix h]
  dsimp only
  rw [List.drop_append_eq_append_drop, List.drop_eq_nil_of_le (by omega)]
  rw [show pre.length + 1 - pre.length = 1 from by omega]
  rfl

theorem check_msg_false_of_none (raw : List ℕ)
    (h : pyIntHex (stripWs (bangRest raw)) = none) : check_msg raw = false := by
  unfold check_msg
  rw [h]

/-- C5 counterexample: the round-trip law as stated quantifies over every
frame content; for the content `"!!"` (whose first `!` is not its last
byte) appending the checksum of the whole content does NOT validate,
because `check_msg` computes over the prefix up to the FIRST `!`. -/
theorem crc_roundtrip_early_bang_fails :
    check_msg (toBytes "!!" ++ hex4 (crc16 (toBytes "!!"))) = false := by decide

/-- C5 amended: for frame content whose only `!` is its final byte,
appending the CRC16 in hex validates as success, and flipping any single
bit of any byte before the final `!` makes validation fail (a flip of the
`!` delimiter itself is excluded: it changes where the message is split,
which is outside the round-trip law). -/
theorem crc_roundtrip_and_flip (content : List ℕ)
    (hbytes : ∀ b ∈ content, b < 256)
    (hlast : content.getLast? = some bangByte)
    (hnobang : ∀ b ∈ content.dropLast, b ≠ bangByte) :
    check_msg (content ++ hex4 (crc16 content)) = true ∧
    (∀ i b : ℕ, i < content.length - 1 → b < 8 →
      check_msg (flipBit content i b ++ hex4 (crc16 content)) = false) := by
  obtain ⟨pre, rfl⟩ := List.getLast?_eq_some_iff.mp hlast
  have hpre_nb : ∀ x ∈ pre, x ≠ bangByte := by
    intro x hx
    exact hnobang x (by rw [List.dropLast_concat]; exact hx)
  have hclt : crc16 (pre ++ [bangByte]) < 65536 := crc16_lt _ hbytes
  have hhexws : ∀ x ∈ hex4 (crc16 (pre ++ [bangByte])), isWsByte x = false :=
    fun x hx => hex4_not_ws _ x hx
  have hassoc : (pre ++ [bangByte]) ++ hex4 (crc16 (pre ++ [bangByte])) =
      pre ++ bangByte :: hex4 (crc16 (pre ++ [bangByte])) := by simp
  constructor
  · rw [check_msg_true_iff, hassoc, bangData_concat _ _ hpre_nb, bangRest_concat _ _ hpre_nb,
      stripWs_eq_self _ hhexws, pyIntHex_hex4 _ hclt]
  · intro i b hi hb
    have hilen : i < pre.length := by simp at hi; omega
    have hflip : flipBit (pre ++ [bangByte]) i b =
        pre.set i (pre.getD i 0 ^^^ 2 ^ b) ++ [bangByte] := by
      unfold flipBit
      rw [List.getD_append _ _ _ _ hilen, List.set_append_left _ _ hilen]
    set y := pre.getD i 0 ^^^ 2 ^ b with hy
    rcases eq_or_ne y bangByte with hyb | hyb
    · have hset : pre.set i y = pre.take i ++ y :: pre.drop (i + 1) := by
        rw [List.set_eq_take_append_cons_drop, if_pos hilen]
      apply check_msg_false_of_none
      rw [hflip, hset, hyb]
      have hre : ((pre.take i ++ bangByte :: pre.drop (i + 1)) ++ [bangByte]) ++
          hex4 (crc16 (pre ++ [bangByte])) =
          pre.take i ++ bangByte ::
            (pre.drop (i + 1) ++ bangByte :: hex4 (crc16 (pre ++ [bangByte]))) := by
        simp
      rw [hre, bangRest_concat _ _ (fun x hx => hpre_nb x (List.mem_of_mem_take hx))]
      apply pyIntHex_bang
      apply mem_stripWs _ (by decide)
      exact List.mem_append.mpr (Or.inr (by simp))
    · have hset_nb : ∀ x ∈ pre.set i y, x ≠ bangByte := by
        intro x hx
        rcases List.mem_or_eq_of_mem_set hx with hmem | rfl
        · exact hpre_nb x hmem
        · exact hyb
      have hcrcne : crc16 (flipBit (pre ++ [bangByte]) i b) ≠ crc16 (pre ++ [bangByte]) :=
        crc16_flip_ne _ i b (by simp; omega) hb
      rcases hcm : check_msg (flipBit (pre ++ [bangByte]) i b ++
          hex4 (crc16 (pre ++ [bangByte]))) with _ | _
      · rfl
      · exfalso
        have hiff := (check_msg_true_iff _).mp hcm
        rw [hflip] at hiff
        have hre : (pre.set i y ++ [bangByte]) ++ hex4 (crc16 (pre ++ [bangByte])) =
            pre.set i y ++ bangByte :: hex4 (crc16 (pre ++ [bangByte])) := by simp
        rw [hre, bangData_concat _ _ hset_nb, bangRest_concat _ _ hset_nb,
          stripWs_eq_self _ hhexws, pyIntHex_hex4 _ hclt] at hiff
        have h2 : crc16 (pre ++ [bangByte]) = crc16 (pre.set i y ++ [bangByte]) := by
          have := Option.some.inj hiff
          exact_mod_cast this
        apply hcrcne
        rw [hflip]
        exact h2.symm

/-- C5 witness: the content `"ab!"` round-trips, and flipping bit 0 of its
first byte fails validation. -/
theorem crc_roundtrip_and_flip_witness :
    check_msg (toBytes "ab!" ++ hex4 (crc16 (toBytes "ab!"))) = true ∧
    check_msg (flipBit (toBytes "ab!") 0 0 ++ hex4 (crc16 (toBytes "ab!"))) = false := by
  have h := crc_roundtrip_and_flip (toBytes "ab!") (by decide) (by decide) (by decide)
  exact ⟨h.1, h.2 0 0 (by decide) (by decide)⟩
